import Mathlib

/-! Shallow embedding of the connection-lifecycle, retry, and migration
subsystem of the ProductivityApp repository: `DatabaseConnection`
(src/database/DatabaseConnection.ts), `MigrationManager`
(src/database/migrationManager.ts) and the bootstrap `DatabaseManager`
(src/database/databaseInit.ts).  The native code paths are embedded; on
`Platform.OS === 'web'` every one of these functions returns early without
touching the store, so the web guard is dropped from the embedding.  -/

/-- A thrown JavaScript error, identified by its message string —
`error.message` is the only field the source inspects. -/
structure DbError where
  message : String
deriving DecidableEq, Repr

/-- Tests whether `pat` is a leading piece of `l` (substring search helper). -/
def charsLeading : List Char → List Char → Bool
  | [], _ => true
  | _ :: _, [] => false
  | a :: pa, b :: pb => a == b && charsLeading pa pb

/-- Tests whether `pat` occurs somewhere inside `l` (substring search helper). -/
def charsContain (pat : List Char) : List Char → Bool
  | [] => charsLeading pat []
  | c :: cs => charsLeading pat (c :: cs) || charsContain pat cs

/-- JavaScript `s.includes(pat)`. -/
def strIncludes (s pat : String) : Bool :=
  charsContain pat.data s.data

/-- Embeds `DatabaseConnection.withRetry` lines 118–124: the error classes that are
never retried (rethrown immediately). -/
def isConstraintError (e : DbError) : Bool :=
  strIncludes e.message "UNIQUE constraint failed" ||
  strIncludes e.message "NOT NULL constraint failed" ||
  strIncludes e.message "CHECK constraint failed"

/-- Embeds `DatabaseConnection.withRetry` lines 127–134: the lock / connection error
classes that additionally reset the cached handle before the next attempt. -/
def isLockError (e : DbError) : Bool :=
  strIncludes e.message "database is locked" ||
  strIncludes e.message "connection" ||
  strIncludes e.message "SQLITE_BUSY"

/-- The `DatabaseRetryOptions` record of DatabaseConnection.ts. -/
structure DatabaseRetryOptions where
  maxRetries : Nat
  baseDelay : Nat
  maxDelay : Nat

/-- The defaults destructured at the top of `withRetry` (line 99). -/
def defaultRetryOptions : DatabaseRetryOptions :=
  ⟨3, 100, 1000⟩

/-- The two connection fields `withRetry` consults before each attempt:
`this.db` (is a handle cached) and `this.initialized`. -/
structure ConnFields where
  dbOpen : Bool
  initialized : Bool
deriving DecidableEq, Repr

/-- Observable behaviour of one `withRetry` call: how many times the wrapped
operation ran, the backoff sleeps performed in order, and the outcome. -/
structure RetryTrace (α : Type) where
  calls : Nat
  delays : List Nat
  result : Except DbError α

/-- The retry loop of `DatabaseConnection.withRetry` (lines 103–147).  The
wrapped operation is modelled as a function of how many times it has already
been invoked, so persistent and eventually-succeeding failures are both
expressible.  Before each attempt the code checks `this.db && this.initialized`
and otherwise re-opens through `doInitialize` (the re-open is assumed to
succeed and refreshes both fields).  `fuel` counts the loop iterations still
allowed; the loop runs attempts `0 … maxRetries`, so it starts at
`maxRetries + 1` and the zero-fuel branch is never reached from `withRetry`. -/
def withRetryAux {α : Type} (op : Nat → Except DbError α)
    (baseDelay maxDelay maxRetries : Nat) :
    Nat → Nat → ConnFields → Nat → RetryTrace α
  | _, _, _, 0 => ⟨0, [], .error ⟨"unreachable: loop exit"⟩⟩
  | attempt, calls, conn, fuel + 1 =>
    let conn1 : ConnFields :=
      if conn.dbOpen && conn.initialized then conn else ⟨true, true⟩
    match op calls with
    | .ok v => ⟨1, [], .ok v⟩
    | .error e =>
      if isConstraintError e then ⟨1, [], .error e⟩
      else
        let conn2 : ConnFields := if isLockError e then ⟨false, false⟩ else conn1
        if attempt = maxRetries then ⟨1, [], .error e⟩
        else
          let d := min (baseDelay * 2 ^ attempt) maxDelay
          let rest :=
            withRetryAux op baseDelay maxDelay maxRetries (attempt + 1)
              (calls + 1) conn2 fuel
          ⟨rest.calls + 1, d :: rest.delays, rest.result⟩

/-- Embeds `DatabaseConnection.withRetry(operation, options)`. -/
def withRetry {α : Type} (op : Nat → Except DbError α)
    (opts : DatabaseRetryOptions) (conn : ConnFields) : RetryTrace α :=
  withRetryAux op opts.baseDelay opts.maxDelay opts.maxRetries 0 0 conn
    (opts.maxRetries + 1)

theorem withRetryAux_allRetryable {α : Type} (op : Nat → Except DbError α)
    (errs : Nat → DbError) (bd md mr : Nat)
    (hop : ∀ k, op k = .error (errs k))
    (hre : ∀ k, isConstraintError (errs k) = false) :
    ∀ rem attempt calls conn, attempt + rem = mr →
      withRetryAux op bd md mr attempt calls conn (rem + 1) =
        ⟨rem + 1,
         (List.range rem).map (fun i => min (bd * 2 ^ (attempt + i)) md),
         .error (errs (calls + rem))⟩ := by
  intro rem
  induction rem with
  | zero =>
    intro attempt calls conn hmr
    simp only [Nat.add_zero] at hmr
    simp [withRetryAux, hop calls, hre calls, hmr]
  | succ rem ih =>
    intro attempt calls conn hmr
    have hne : attempt ≠ mr := by omega
    rw [withRetryAux, hop calls]
    simp only [hre, Bool.false_eq_true, if_false, if_neg hne]
    rw [ih (attempt + 1) (calls + 1) _ (by omega)]
    have h3 : calls + 1 + rem = calls + (rem + 1) := by omega
    have h4 : (List.range (rem + 1)).map (fun i => min (bd * 2 ^ (attempt + i)) md) =
        min (bd * 2 ^ attempt) md ::
          (List.range rem).map (fun i => min (bd * 2 ^ (attempt + 1 + i)) md) := by
      rw [List.range_succ_eq_map, List.map_cons, List.map_map]
      congr 1
      refine List.map_congr_left ?_
      intro i _
      have h2 : attempt + 1 + i = attempt + Nat.succ i := by omega
      simp [Function.comp, h2]
    rw [h4, h3]

/-- Claim C3: for every operation that fails on every attempt with an error
the retry loop does not classify as a constraint violation (in particular
every retryable lock/busy/connection failure), `withRetry` performs exactly
`maxRetries` retries after the first attempt (`maxRetries + 1` underlying
calls in total), sleeps `min(baseDelay * 2^i, maxDelay)` before retry `i` for
each `i` in `[0, maxRetries)`, and finally rethrows the last observed
error. -/
theorem withRetry_persistent_failure_envelope {α : Type}
    (op : Nat → Except DbError α) (errs : Nat → DbError)
    (opts : DatabaseRetryOptions) (conn : ConnFields)
    (hop : ∀ k, op k = .error (errs k))
    (hre : ∀ k, isConstraintError (errs k) = false) :
    (withRetry op opts conn).calls = opts.maxRetries + 1 ∧
    (withRetry op opts conn).delays =
      (List.range opts.maxRetries).map
        (fun i => min (opts.baseDelay * 2 ^ i) opts.maxDelay) ∧
    (withRetry op opts conn).result = .error (errs opts.maxRetries) := by
  have h := withRetryAux_allRetryable op errs opts.baseDelay opts.maxDelay
    opts.maxRetries hop hre opts.maxRetries 0 0 conn (by omega)
  unfold withRetry
  rw [h]
  refine ⟨rfl, ?_, by rw [Nat.zero_add]⟩
  refine List.map_congr_left ?_
  intro i _
  rw [Nat.zero_add]

/-- Witness for claim C3: a persistent "database is locked" failure under the
default options (maxRetries 3, baseDelay 100, maxDelay 1000) is attempted 4
times, sleeps 100, 200, 400 ms, and rethrows the lock error. -/
theorem withRetry_persistent_failure_envelope_witness :
    (withRetry (fun _ => (.error ⟨"database is locked"⟩ : Except DbError Nat))
        defaultRetryOptions ⟨true, true⟩).calls = 3 + 1 ∧
    (withRetry (fun _ => (.error ⟨"database is locked"⟩ : Except DbError Nat))
        defaultRetryOptions ⟨true, true⟩).delays = [100, 200, 400] ∧
    (withRetry (fun _ => (.error ⟨"database is locked"⟩ : Except DbError Nat))
        defaultRetryOptions ⟨true, true⟩).result =
      .error ⟨"database is locked"⟩ := by
  have hcon : isConstraintError ⟨"database is locked"⟩ = false := by decide
  have h := withRetry_persistent_failure_envelope
    (fun _ => (.error ⟨"database is locked"⟩ : Except DbError Nat))
    (fun _ => ⟨"database is locked"⟩) defaultRetryOptions ⟨true, true⟩
    (fun _ => rfl) (fun _ => hcon)
  refine ⟨h.1, ?_, h.2.2⟩
  rw [h.2.1]
  decide

/-- Claim C4: an operation failing with a non-retryable constraint violation
(unique, not-null, or check constraint) is invoked exactly once, no backoff
sleep happens, and the very same error propagates to the caller. -/
theorem withRetry_constraint_violation_no_retry {α : Type}
    (op : Nat → Except DbError α) (e : DbError)
    (opts : DatabaseRetryOptions) (conn : ConnFields)
    (hop : op 0 = .error e)
    (hc : isConstraintError e = true) :
    (withRetry op opts conn).calls = 1 ∧
    (withRetry op opts conn).delays = [] ∧
    (withRetry op opts conn).result = .error e := by
  unfold withRetry
  rw [withRetryAux, hop]
  simp [hc]

/-- Witness for claim C4: a UNIQUE-constraint failure on the first call is
rethrown at once with a single underlying call and no delay. -/
theorem withRetry_constraint_violation_no_retry_witness :
    (withRetry
        (fun _ => (.error ⟨"UNIQUE constraint failed: tasks.id"⟩ :
          Except DbError Nat))
        defaultRetryOptions ⟨true, true⟩).calls = 1 ∧
    (withRetry
        (fun _ => (.error ⟨"UNIQUE constraint failed: tasks.id"⟩ :
          Except DbError Nat))
        defaultRetryOptions ⟨true, true⟩).delays = [] ∧
    (withRetry
        (fun _ => (.error ⟨"UNIQUE constraint failed: tasks.id"⟩ :
          Except DbError Nat))
        defaultRetryOptions ⟨true, true⟩).result =
      .error ⟨"UNIQUE constraint failed: tasks.id"⟩ :=
  withRetry_constraint_violation_no_retry
    (fun _ => .error ⟨"UNIQUE constraint failed: tasks.id"⟩)
    ⟨"UNIQUE constraint failed: tasks.id"⟩ defaultRetryOptions ⟨true, true⟩
    rfl (by decide)

/-- The result one `initialize()` caller observes. -/
inductive InitOutcome
  | ok
  | err (e : DbError)
deriving DecidableEq, Repr

/-- The lifecycle fields of the `DatabaseConnection` singleton, instrumented:
`opens` counts calls of `SQLite.openDatabaseAsync`, `waiters` counts callers
currently awaiting the in-flight `initializationPromise` (the initiator
included).  `Uninitialized` is `initialized = false ∧ isInitializing = false`,
`Initializing` is `isInitializing = true`, `Ready` is `initialized = true`. -/
structure InitState where
  initialized : Bool
  isInitializing : Bool
  promiseLive : Bool
  dbOpen : Bool
  opens : Nat
  waiters : Nat
deriving DecidableEq, Repr

/-- The singleton as first constructed: nothing open, nobody waiting. -/
def freshConn : InitState :=
  ⟨false, false, false, false, 0, 0⟩

/-- One caller runs the synchronous part of `initialize()` (lines 28–37).
The block contains no `await`, so under JavaScript's run-to-completion
scheduling it is a single atomic step; calling `doInitialize()` executes its
body synchronously up to and including starting `openDatabaseAsync`, which is
the underlying open counted in `opens`. -/
def initArrive (s : InitState) : InitState :=
  if s.initialized then s
  else if s.isInitializing && s.promiseLive then
    { s with waiters := s.waiters + 1 }
  else
    { s with isInitializing := true, promiseLive := true,
             opens := s.opens + 1, waiters := s.waiters + 1 }

/-- Runs `n` callers through `initialize()` one after another with no intervening
completion of the in-flight open — i.e. all of them arrive while the
connection is Uninitialized or Initializing. -/
def initArriveN : Nat → InitState → InitState
  | 0, s => s
  | n + 1, s => initArriveN n (initArrive s)

/-- The in-flight open rejects with `e`: `doInitialize` rethrows, the
`finally` block of `initialize()` clears `isInitializing` and
`initializationPromise`, `this.db` and `this.initialized` are left untouched
(still unset), and every waiter's `await` of the shared promise delivers the
same rejection `e`. -/
def initOpenFails (e : DbError) (s : InitState) : InitState × List InitOutcome :=
  ({ s with isInitializing := false, promiseLive := false, waiters := 0 },
   List.replicate s.waiters (.err e))

/-- The in-flight open resolves: `doInitialize` stores the handle and sets
`initialized`, the `finally` block clears the in-flight markers, and every
waiter resumes successfully. -/
def initOpenSucceeds (s : InitState) : InitState × List InitOutcome :=
  ({ s with initialized := true, dbOpen := true, isInitializing := false,
            promiseLive := false, waiters := 0 },
   List.replicate s.waiters .ok)

theorem initArriveN_inflight (n : Nat) :
    ∀ s : InitState, s.initialized = false → s.isInitializing = true →
      s.promiseLive = true →
      initArriveN n s = { s with waiters := s.waiters + n } := by
  induction n with
  | zero => intro s h1 h2 h3; simp [initArriveN]
  | succ n ih =>
    intro s h1 h2 h3
    have harr : initArrive s = { s with waiters := s.waiters + 1 } := by
      simp [initArrive, h1, h2, h3]
    rw [initArriveN, harr, ih { s with waiters := s.waiters + 1 } h1 h2 h3]
    simp [Nat.add_assoc, Nat.add_comm 1 n]

theorem initArriveN_fresh (n : Nat) (h : 1 ≤ n) :
    initArriveN n freshConn = ⟨false, true, true, false, 1, n⟩ := by
  obtain ⟨m, rfl⟩ : ∃ m, n = m + 1 := ⟨n - 1, by omega⟩
  have h1 : initArrive freshConn = ⟨false, true, true, false, 1, 1⟩ := by
    simp [initArrive, freshConn]
  rw [initArriveN, h1,
    initArriveN_inflight m ⟨false, true, true, false, 1, 1⟩ rfl rfl rfl]
  simp [Nat.add_comm 1 m]

/-- Claim C2: for every `N ≥ 1`, `N` concurrent `initialize()` calls made
while the connection is Uninitialized or Initializing perform exactly one
underlying open of the store: the first caller starts the open and every
later caller joins the same in-flight attempt as a waiter instead of starting
a second open. -/
theorem initialize_single_flight (n : Nat) (h : 1 ≤ n) :
    (initArriveN n freshConn).opens = 1 ∧
    (initArriveN n freshConn).waiters = n ∧
    (initArriveN n freshConn).isInitializing = true := by
  rw [initArriveN_fresh n h]
  exact ⟨rfl, rfl, rfl⟩

/-- Witness for claim C2: three concurrent callers cause exactly one open. -/
theorem initialize_single_flight_witness :
    (initArriveN 3 freshConn).opens = 1 ∧
    (initArriveN 3 freshConn).waiters = 3 ∧
    (initArriveN 3 freshConn).isInitializing = true :=
  initialize_single_flight 3 (by decide)

/-- Claim C8: when the underlying open fails during `initialize()`, the
connection returns to Uninitialized — not Ready, not Initializing, with no
handle retained — and every one of the `n` callers that was awaiting the
in-flight attempt receives the very error the open produced. -/
theorem initialize_open_failure_resets (n : Nat) (e : DbError) (h : 1 ≤ n) :
    ((initOpenFails e (initArriveN n freshConn)).1.initialized = false ∧
     (initOpenFails e (initArriveN n freshConn)).1.isInitializing = false ∧
     (initOpenFails e (initArriveN n freshConn)).1.promiseLive = false ∧
     (initOpenFails e (initArriveN n freshConn)).1.dbOpen = false) ∧
    (initOpenFails e (initArriveN n freshConn)).2 =
      List.replicate n (.err e) := by
  rw [initArriveN_fresh n h]
  exact ⟨⟨rfl, rfl, rfl, rfl⟩, rfl⟩

/-- Witness for claim C8: two waiting callers both receive the open's error
and the connection is back to Uninitialized with no handle. -/
theorem initialize_open_failure_resets_witness :
    ((initOpenFails ⟨"unable to open database file"⟩
        (initArriveN 2 freshConn)).1.initialized = false ∧
     (initOpenFails ⟨"unable to open database file"⟩
        (initArriveN 2 freshConn)).1.isInitializing = false ∧
     (initOpenFails ⟨"unable to open database file"⟩
        (initArriveN 2 freshConn)).1.promiseLive = false ∧
     (initOpenFails ⟨"unable to open database file"⟩
        (initArriveN 2 freshConn)).1.dbOpen = false) ∧
    (initOpenFails ⟨"unable to open database file"⟩
        (initArriveN 2 freshConn)).2 =
      List.replicate 2 (.err ⟨"unable to open database file"⟩) :=
  initialize_open_failure_resets 2 ⟨"unable to open database file"⟩ (by decide)

/-- One row of the `migrations` ledger table
(`version INTEGER PRIMARY KEY, name TEXT NOT NULL, applied_at …`);
`applied_at` is filled by a column default and never read by the runner, so
it is omitted here. -/
structure LedgerRow where
  version : Int
  name : String
deriving DecidableEq, Repr

/-- A migration descriptor of migrationManager.ts: `up`/`down` are arbitrary
effects on the user-table schema, modelled as transformers of an abstract
schema type `σ` that may fail. -/
structure Migration (σ : Type) where
  version : Int
  name : String
  up : σ → Except DbError σ
  down : σ → Except DbError σ

/-- The persistent store as the migration runner sees it: the user-table
schema plus the `migrations` ledger table (created idempotently by
`MigrationManager.initialize`, so it is always present here). -/
structure MigState (σ : Type) where
  schema : σ
  ledger : List LedgerRow

/-- Computes `MAX(version)` over a ledger, with the empty/absent case as 0. -/
def ledgerMax (l : List LedgerRow) : Int :=
  l.foldr (fun r acc => max r.version acc) 0

/-- Embeds `MigrationManager.getCurrentVersion`: `SELECT MAX(version) FROM
migrations`, with a null result or an unreadable table coalesced to 0. -/
def getCurrentVersion {σ : Type} (st : MigState σ) : Int :=
  ledgerMax st.ledger

/-- Embeds `INSERT INTO migrations (version, name) VALUES (?, ?)`: `version` is the
primary key, so inserting a version already present raises a UNIQUE
constraint error; otherwise the row is appended. -/
def insertLedgerRow {σ : Type} (st : MigState σ) (v : Int) (n : String) :
    Except DbError (MigState σ) :=
  if st.ledger.any (fun r => r.version == v) then
    .error ⟨"UNIQUE constraint failed: migrations.version"⟩
  else
    .ok ⟨st.schema, st.ledger ++ [⟨v, n⟩]⟩

/-- The second store-mutating step of `applyMigration`: record the ledger
row, leaving the store as-is when the insert fails. -/
def ledgerInsertStep {σ : Type} (m : Migration σ) (st : MigState σ) :
    MigState σ × Option DbError :=
  match insertLedgerRow st m.version m.name with
  | .error e => (st, some e)
  | .ok st2 => (st2, none)

/-- Embeds `MigrationManager.applyMigration`: run `m.up` on the schema, then insert
the ledger row — two sequential store mutations with no transaction around
them.  The returned store is whatever the failing step left behind. -/
def applyMigration {σ : Type} (m : Migration σ) (st : MigState σ) :
    MigState σ × Option DbError :=
  match m.up st.schema with
  | .error e => (st, some e)
  | .ok sch => ledgerInsertStep m ⟨sch, st.ledger⟩

/-- The store after only the first `k` of `applyMigration`'s two mutating
steps; `k = 1` is the crash point after `m.up` and before the ledger
insert. -/
def applyMigrationUpTo {σ : Type} (m : Migration σ) (st : MigState σ) :
    Nat → MigState σ × Option DbError
  | 0 => (st, none)
  | 1 =>
    match m.up st.schema with
    | .error e => (st, some e)
    | .ok sch => (⟨sch, st.ledger⟩, none)
  | _ + 2 => applyMigration m st

/-- Stable insertion of `m` into a version-ascending list: `m` goes before
the first element whose version is not below `m`'s. -/
def insertByVersion {σ : Type} (m : Migration σ) :
    List (Migration σ) → List (Migration σ)
  | [] => [m]
  | x :: xs =>
    if x.version < m.version then x :: insertByVersion m xs
    else m :: x :: xs

/-- Embeds `migrations.sort((a, b) => a.version - b.version)` — the ascending,
stable (ES2019) in-place sort, modelled as stable insertion sort. -/
def sortByVersion {σ : Type} : List (Migration σ) → List (Migration σ)
  | [] => []
  | m :: rest => insertByVersion m (sortByVersion rest)

/-- The loop of `MigrationManager.runMigrations`: walk the sorted list,
apply every migration whose version exceeds `current`, abort on the first
failure.  Returns the final store, the versions applied in order, and the
aborting error if any. -/
def runMigrationsAux {σ : Type} (current : Int) :
    List (Migration σ) → MigState σ → MigState σ × List Int × Option DbError
  | [], st => (st, [], none)
  | m :: rest, st =>
    if current < m.version then
      match applyMigration m st with
      | (st1, some e) => (st1, [], some e)
      | (st1, none) =>
        let out := runMigrationsAux current rest st1
        (out.1, m.version :: out.2.1, out.2.2)
    else runMigrationsAux current rest st

/-- Outcome of one `runMigrations` call: final store, versions applied in
order, the caller's migration array as it stands after the call (the sort
at line 71 mutates it in place), and the aborting error if any. -/
structure RunOutcome (σ : Type) where
  state : MigState σ
  applied : List Int
  callerArray : List (Migration σ)
  err : Option DbError

/-- Embeds `MigrationManager.runMigrations(migrations)`: ensure the ledger exists,
read the current version, sort the caller's array in place ascending by
version, then apply every pending migration in order. -/
def runMigrations {σ : Type} (migs : List (Migration σ)) (st : MigState σ) :
    RunOutcome σ :=
  let current := getCurrentVersion st
  let sorted := sortByVersion migs
  let out := runMigrationsAux current sorted st
  ⟨out.1, out.2.1, sorted, out.2.2⟩

theorem ledgerMax_nonneg (l : List LedgerRow) : 0 ≤ ledgerMax l := by
  induction l with
  | nil => simp [ledgerMax]
  | cons r rest ih =>
    simp only [ledgerMax, List.foldr_cons] at ih ⊢
    exact le_trans ih (le_max_right _ _)

theorem ledgerMax_mem_le (l : List LedgerRow) (r : LedgerRow) (h : r ∈ l) :
    r.version ≤ ledgerMax l := by
  induction l with
  | nil => cases h
  | cons a rest ih =>
    simp only [ledgerMax, List.foldr_cons]
    rcases List.mem_cons.1 h with rfl | hmem
    · exact le_max_left _ _
    · exact le_trans (ih hmem) (le_max_right _ _)

theorem ledgerMax_append (a b : List LedgerRow) :
    ledgerMax (a ++ b) = max (ledgerMax a) (ledgerMax b) := by
  induction a with
  | nil =>
    simp only [List.nil_append, ledgerMax, List.foldr_nil]
    exact (max_eq_right (ledgerMax_nonneg b)).symm
  | cons r rest ih =>
    simp only [List.cons_append, ledgerMax, List.foldr_cons] at ih ⊢
    rw [ih, max_assoc]

theorem insertByVersion_perm {σ : Type} (m : Migration σ) :
    ∀ l : List (Migration σ), (insertByVersion m l).Perm (m :: l) := by
  intro l
  induction l with
  | nil => simp [insertByVersion]
  | cons x xs ih =>
    rw [insertByVersion]
    by_cases hx : x.version < m.version
    · rw [if_pos hx]
      exact (ih.cons x).trans (List.Perm.swap m x xs)
    · rw [if_neg hx]

theorem sortByVersion_perm {σ : Type} :
    ∀ l : List (Migration σ), (sortByVersion l).Perm l := by
  intro l
  induction l with
  | nil => simp [sortByVersion]
  | cons m rest ih =>
    exact (insertByVersion_perm m (sortByVersion rest)).trans (ih.cons m)

theorem insertByVersion_pairwise {σ : Type} (m : Migration σ) :
    ∀ l : List (Migration σ),
      l.Pairwise (fun a b => a.version ≤ b.version) →
      (insertByVersion m l).Pairwise (fun a b => a.version ≤ b.version) := by
  intro l
  induction l with
  | nil => intro _; simp [insertByVersion]
  | cons x xs ih =>
    intro hp
    rw [List.pairwise_cons] at hp
    rw [insertByVersion]
    by_cases hx : x.version < m.version
    · rw [if_pos hx, List.pairwise_cons]
      refine ⟨?_, ih hp.2⟩
      intro y hy
      rcases List.mem_cons.1 (((insertByVersion_perm m xs).mem_iff).1 hy) with
        rfl | hmem
      · exact le_of_lt hx
      · exact hp.1 y hmem
    · rw [if_neg hx, List.pairwise_cons]
      have hmx : m.version ≤ x.version := le_of_not_lt hx
      refine ⟨?_, List.pairwise_cons.2 hp⟩
      intro y hy
      rcases List.mem_cons.1 hy with rfl | hmem
      · exact hmx
      · exact le_trans hmx (hp.1 y hmem)

theorem sortByVersion_pairwise {σ : Type} :
    ∀ l : List (Migration σ),
      (sortByVersion l).Pairwise (fun a b => a.version ≤ b.version) := by
  intro l
  induction l with
  | nil => simp [sortByVersion]
  | cons m rest ih => exact insertByVersion_pairwise m _ ih

theorem applyMigration_ledger_shape {σ : Type} (m : Migration σ)
    (st : MigState σ) :
    (applyMigration m st).1.ledger = st.ledger ∨
    (applyMigration m st).1.ledger =
      st.ledger ++ [⟨m.version, m.name⟩] := by
  unfold applyMigration ledgerInsertStep insertLedgerRow
  cases m.up st.schema with
  | error e => left; rfl
  | ok sch =>
    by_cases hin : st.ledger.any (fun r => r.version == m.version) = true
    · left; simp [hin]
    · right; simp [hin]

theorem applyMigration_ok_shape {σ : Type} (m : Migration σ)
    (st st1 : MigState σ) (h : applyMigration m st = (st1, none)) :
    st1.ledger = st.ledger ++ [⟨m.version, m.name⟩] := by
  unfold applyMigration ledgerInsertStep insertLedgerRow at h
  cases hup : m.up st.schema with
  | error e => rw [hup] at h; cases h
  | ok sch =>
    rw [hup] at h
    by_cases hin : st.ledger.any (fun r => r.version == m.version) = true
    · simp [hin] at h
    · simp [hin] at h
      rw [← h]

theorem runMigrationsAux_appends {σ : Type} (current : Int) :
    ∀ (l : List (Migration σ)) (st : MigState σ),
      ∃ extra, (runMigrationsAux current l st).1.ledger = st.ledger ++ extra := by
  intro l
  induction l with
  | nil => intro st; exact ⟨[], by simp [runMigrationsAux]⟩
  | cons m rest ih =>
    intro st
    by_cases hv : current < m.version
    · rcases happ : applyMigration m st with ⟨st1, oe⟩
      cases oe with
      | some e =>
        rcases applyMigration_ledger_shape m st with hsh | hsh <;>
          simp only [happ] at hsh
        · refine ⟨[], ?_⟩
          simp only [runMigrationsAux, if_pos hv, happ]
          simp [hsh]
        · refine ⟨[⟨m.version, m.name⟩], ?_⟩
          simp only [runMigrationsAux, if_pos hv, happ]
          exact hsh
      | none =>
        obtain ⟨extra2, hex⟩ := ih st1
        have hsh := applyMigration_ok_shape m st st1 happ
        refine ⟨⟨m.version, m.name⟩ :: extra2, ?_⟩
        simp only [runMigrationsAux, if_pos hv, happ]
        rw [hex, hsh, List.append_assoc]
        rfl
    · obtain ⟨extra, hex⟩ := ih st
      exact ⟨extra, by simp only [runMigrationsAux, if_neg hv]; exact hex⟩

theorem runMigrationsAux_ok_mem {σ : Type} (current : Int) :
    ∀ (l : List (Migration σ)) (st : MigState σ),
      (runMigrationsAux current l st).2.2 = none →
      ∀ m ∈ l, current < m.version →
        m.version ∈ ((runMigrationsAux current l st).1.ledger).map
          (fun r => r.version) := by
  intro l
  induction l with
  | nil => intro st _ m hm; cases hm
  | cons m0 rest ih =>
    intro st hok m hm hv
    by_cases hv0 : current < m0.version
    · rcases happ : applyMigration m0 st with ⟨st1, oe⟩
      cases oe with
      | some e =>
        rw [runMigrationsAux] at hok
        simp only [if_pos hv0, happ] at hok
        cases hok
      | none =>
        rw [runMigrationsAux] at hok ⊢
        simp only [if_pos hv0, happ] at hok ⊢
        rcases List.mem_cons.1 hm with rfl | hmem
        · have hsh := applyMigration_ok_shape m st st1 happ
          obtain ⟨extra, hex⟩ := runMigrationsAux_appends current rest st1
          rw [hex, hsh]
          simp
        · exact ih st1 hok m hmem hv
    · rw [runMigrationsAux] at hok ⊢
      simp only [if_neg hv0] at hok ⊢
      rcases List.mem_cons.1 hm with rfl | hmem
      · exact absurd hv hv0
      · exact ih st hok m hmem hv

theorem runMigrationsAux_skip_all {σ : Type} (current : Int) :
    ∀ (l : List (Migration σ)) (st : MigState σ),
      (∀ m ∈ l, ¬ current < m.version) →
      runMigrationsAux current l st = (st, [], none) := by
  intro l
  induction l with
  | nil => intro st _; rfl
  | cons m rest ih =>
    intro st hall
    rw [runMigrationsAux, if_neg (hall m (List.mem_cons_self m rest))]
    exact ih st (fun m2 hm2 => hall m2 (List.mem_cons_of_mem m hm2))

theorem runMigrationsAux_all_ok {σ : Type} (current : Int) :
    ∀ (l : List (Migration σ)) (st : MigState σ),
      (∀ m ∈ l, ∀ s, ∃ s2, m.up s = .ok s2) →
      (∀ m ∈ l, current < m.version → ∀ r ∈ st.ledger, r.version ≠ m.version) →
      (l.map (fun m => m.version)).Nodup →
      (runMigrationsAux current l st).2.2 = none ∧
      (runMigrationsAux current l st).2.1 =
        (l.filter (fun m => current < m.version)).map (fun m => m.version) ∧
      (runMigrationsAux current l st).1.ledger =
        st.ledger ++ (l.filter (fun m => current < m.version)).map
          (fun m => (⟨m.version, m.name⟩ : LedgerRow)) := by
  intro l
  induction l with
  | nil => intro st _ _ _; refine ⟨rfl, rfl, by simp [runMigrationsAux]⟩
  | cons m rest ih =>
    intro st hups hled hnd
    rw [List.map_cons, List.nodup_cons] at hnd
    by_cases hv : current < m.version
    · obtain ⟨sch, hsch⟩ := hups m (List.mem_cons_self m rest) st.schema
      have hnotin : st.ledger.any (fun r => r.version == m.version) = false := by
        rw [List.any_eq_false]
        intro r hr
        simpa using hled m (List.mem_cons_self m rest) hv r hr
      have happ : applyMigration m st =
          (⟨sch, st.ledger ++ [⟨m.version, m.name⟩]⟩, none) := by
        unfold applyMigration ledgerInsertStep insertLedgerRow
        rw [hsch]
        simp [hnotin]
      have hups2 : ∀ m2 ∈ rest, ∀ s, ∃ s2, m2.up s = .ok s2 :=
        fun m2 hm2 => hups m2 (List.mem_cons_of_mem m hm2)
      have hled2 : ∀ m2 ∈ rest, current < m2.version →
          ∀ r ∈ st.ledger ++ [⟨m.version, m.name⟩], r.version ≠ m2.version := by
        intro m2 hm2 hv2 r hr
        rcases List.mem_append.1 hr with hro | hrn
        · exact hled m2 (List.mem_cons_of_mem m hm2) hv2 r hro
        · have : r = ⟨m.version, m.name⟩ := List.mem_singleton.1 hrn
          subst this
          intro hcontra
          exact hnd.1 (List.mem_map.2 ⟨m2, hm2, hcontra.symm⟩)
      obtain ⟨h1, h2, h3⟩ :=
        ih ⟨sch, st.ledger ++ [⟨m.version, m.name⟩]⟩ hups2 hled2 hnd.2
      rw [runMigrationsAux]
      simp only [if_pos hv, happ]
      refine ⟨h1, ?_, ?_⟩
      · rw [List.filter_cons_of_pos (by simpa using hv), List.map_cons]
        exact congrArg _ h2
      · rw [List.filter_cons_of_pos (by simpa using hv), List.map_cons, h3]
        simp
    · have hups2 : ∀ m2 ∈ rest, ∀ s, ∃ s2, m2.up s = .ok s2 :=
        fun m2 hm2 => hups m2 (List.mem_cons_of_mem m hm2)
      have hled2 : ∀ m2 ∈ rest, current < m2.version →
          ∀ r ∈ st.ledger, r.version ≠ m2.version :=
        fun m2 hm2 => hled m2 (List.mem_cons_of_mem m hm2)
      obtain ⟨h1, h2, h3⟩ := ih st hups2 hled2 hnd.2
      rw [runMigrationsAux]
      simp only [if_neg hv]
      refine ⟨h1, ?_, ?_⟩
      · rw [List.filter_cons_of_neg (by simpa using hv)]
        exact h2
      · rw [List.filter_cons_of_neg (by simpa using hv)]
        exact h3

theorem runMigrations_err_eq {σ : Type} (migs : List (Migration σ))
    (st : MigState σ) :
    (runMigrations migs st).err =
      (runMigrationsAux (getCurrentVersion st) (sortByVersion migs) st).2.2 :=
  rfl

theorem runMigrations_applied_eq {σ : Type} (migs : List (Migration σ))
    (st : MigState σ) :
    (runMigrations migs st).applied =
      (runMigrationsAux (getCurrentVersion st) (sortByVersion migs) st).2.1 :=
  rfl

theorem runMigrations_state_eq {σ : Type} (migs : List (Migration σ))
    (st : MigState σ) :
    (runMigrations migs st).state =
      (runMigrationsAux (getCurrentVersion st) (sortByVersion migs) st).1 :=
  rfl

theorem pairwise_lt_of_le_nodup :
    ∀ l : List Int, l.Pairwise (fun a b => a ≤ b) → l.Nodup →
      l.Pairwise (fun a b => a < b) := by
  intro l
  induction l with
  | nil => intro _ _; exact List.Pairwise.nil
  | cons a rest ih =>
    intro hle hnd
    rw [List.pairwise_cons] at hle ⊢
    rw [List.nodup_cons] at hnd
    refine ⟨?_, ih hle.2 hnd.2⟩
    intro b hb
    refine lt_of_le_of_ne (hle.1 b hb) ?_
    intro hcontra
    exact hnd.1 (hcontra ▸ hb)

/-- Claim C5: for every list of migrations with pairwise-distinct versions,
supplied in any order and with total `up` transforms, `runMigrations`
succeeds and applies exactly the migrations whose version strictly exceeds
`getCurrentVersion()`, in strictly ascending version order (the applied
sequence is the ascending sort of the input filtered to pending versions,
and it is strictly increasing). -/
theorem runMigrations_applies_pending_in_order {σ : Type}
    (migs : List (Migration σ)) (st : MigState σ)
    (hnd : (migs.map (fun m => m.version)).Nodup)
    (hup : ∀ m ∈ migs, ∀ s, ∃ s2, m.up s = .ok s2) :
    (runMigrations migs st).err = none ∧
    (runMigrations migs st).applied =
      ((sortByVersion migs).filter
        (fun m => getCurrentVersion st < m.version)).map (fun m => m.version) ∧
    (runMigrations migs st).applied.Pairwise (fun a b => a < b) := by
  have hperm := sortByVersion_perm migs
  have hup2 : ∀ m ∈ sortByVersion migs, ∀ s, ∃ s2, m.up s = .ok s2 :=
    fun m hm => hup m (hperm.mem_iff.1 hm)
  have hled : ∀ m ∈ sortByVersion migs, getCurrentVersion st < m.version →
      ∀ r ∈ st.ledger, r.version ≠ m.version := by
    intro m _ hv r hr hcon
    have hle := ledgerMax_mem_le st.ledger r hr
    rw [hcon] at hle
    exact absurd hv (not_lt.2 hle)
  have hnd2 : ((sortByVersion migs).map (fun m => m.version)).Nodup :=
    ((hperm.map (fun m => m.version)).nodup_iff).2 hnd
  obtain ⟨h1, h2, _⟩ := runMigrationsAux_all_ok (getCurrentVersion st)
    (sortByVersion migs) st hup2 hled hnd2
  rw [runMigrations_err_eq, runMigrations_applied_eq]
  refine ⟨h1, h2, ?_⟩
  rw [h2]
  have hsorted := sortByVersion_pairwise migs
  have hfilter := hsorted.filter
    (fun m => decide (getCurrentVersion st < m.version))
  have hmap : (((sortByVersion migs).filter
      (fun m => decide (getCurrentVersion st < m.version))).map
        (fun m => m.version)).Pairwise (fun a b => a ≤ b) :=
    List.pairwise_map.2 hfilter
  have hsub : List.Sublist
      (((sortByVersion migs).filter
        (fun m => decide (getCurrentVersion st < m.version))).map
          (fun m => m.version))
      ((sortByVersion migs).map (fun m => m.version)) :=
    (List.filter_sublist _).map _
  exact pairwise_lt_of_le_nodup _ hmap (hnd2.sublist hsub)

/-- A concrete migration over schema `Nat` whose `up` bumps the schema. -/
def natMig (v : Int) (nm : String) : Migration Nat :=
  ⟨v, nm, fun s => .ok (s + 1), fun s => .ok s⟩

/-- A store whose ledger is at version 3. -/
def ledgerAt3 : MigState Nat :=
  ⟨0, [⟨1, "m1"⟩, ⟨2, "m2"⟩, ⟨3, "m3"⟩]⟩

/-- Migrations with versions 1, 2, 3, 4 supplied in that order. -/
def migs1234 : List (Migration Nat) :=
  [natMig 1 "m1", natMig 2 "m2", natMig 3 "m3", natMig 4 "m4"]

/-- Witness for claim C5: with the ledger at version 3 and migrations
1, 2, 3, 4 supplied, the run succeeds and applies only version 4. -/
theorem runMigrations_applies_pending_in_order_witness :
    (runMigrations migs1234 ledgerAt3).err = none ∧
    (runMigrations migs1234 ledgerAt3).applied = [4] := by
  have hup : ∀ m ∈ migs1234, ∀ s, ∃ s2, m.up s = .ok s2 := by
    intro m hm s
    refine ⟨s + 1, ?_⟩
    fin_cases hm <;> rfl
  obtain ⟨h1, h2, _⟩ :=
    runMigrations_applies_pending_in_order migs1234 ledgerAt3 (by decide) hup
  refine ⟨h1, ?_⟩
  rw [h2]
  decide

/-- Claim C6: `runMigrations` is idempotent — after one successful
`runMigrations(migs)`, running it again with the same list applies zero
additional migrations, leaves the store untouched, and leaves
`getCurrentVersion()` unchanged, because every migration with version ≤ the
ledger maximum is skipped even when resubmitted. -/
theorem runMigrations_idempotent {σ : Type} (migs : List (Migration σ))
    (st : MigState σ) (h : (runMigrations migs st).err = none) :
    (runMigrations migs (runMigrations migs st).state).applied = [] ∧
    (runMigrations migs (runMigrations migs st).state).state =
      (runMigrations migs st).state ∧
    getCurrentVersion
        (runMigrations migs (runMigrations migs st).state).state =
      getCurrentVersion (runMigrations migs st).state := by
  rw [runMigrations_err_eq] at h
  have hkey : ∀ m ∈ sortByVersion migs,
      m.version ≤ getCurrentVersion
        (runMigrationsAux (getCurrentVersion st) (sortByVersion migs) st).1 := by
    intro m hm
    by_cases hv : getCurrentVersion st < m.version
    · have hmem := runMigrationsAux_ok_mem (getCurrentVersion st)
        (sortByVersion migs) st h m hm hv
      obtain ⟨r, hr, hrv⟩ := List.mem_map.1 hmem
      have hle := ledgerMax_mem_le _ r hr
      rw [hrv] at hle
      exact hle
    · push_neg at hv
      obtain ⟨extra, hex⟩ := runMigrationsAux_appends (getCurrentVersion st)
        (sortByVersion migs) st
      have hmono : getCurrentVersion st ≤ getCurrentVersion
          (runMigrationsAux (getCurrentVersion st) (sortByVersion migs) st).1 := by
        show ledgerMax st.ledger ≤ ledgerMax _
        rw [hex, ledgerMax_append]
        exact le_max_left _ _
      exact le_trans hv hmono
  have hskip := runMigrationsAux_skip_all
    (getCurrentVersion
      (runMigrationsAux (getCurrentVersion st) (sortByVersion migs) st).1)
    (sortByVersion migs)
    (runMigrationsAux (getCurrentVersion st) (sortByVersion migs) st).1
    (fun m hm => not_lt.2 (hkey m hm))
  refine ⟨?_, ?_, ?_⟩
  · rw [runMigrations_state_eq migs st, runMigrations_applied_eq, hskip]
  · rw [runMigrations_state_eq migs st, runMigrations_state_eq, hskip]
  · rw [runMigrations_state_eq migs st, runMigrations_state_eq, hskip]

/-- An empty store over schema `Nat`: nothing applied yet. -/
def emptyStoreNat : MigState Nat :=
  ⟨0, []⟩

/-- A single version-1 migration. -/
def migsSingle : List (Migration Nat) :=
  [natMig 1 "m1"]

/-- Witness for claim C6: a successful run on a fresh store, rerun with the
same list, applies nothing and changes nothing. -/
theorem runMigrations_idempotent_witness :
    (runMigrations migsSingle emptyStoreNat).err = none ∧
    ((runMigrations migsSingle
        (runMigrations migsSingle emptyStoreNat).state).applied = [] ∧
     (runMigrations migsSingle
        (runMigrations migsSingle emptyStoreNat).state).state =
       (runMigrations migsSingle emptyStoreNat).state ∧
     getCurrentVersion
         (runMigrations migsSingle
           (runMigrations migsSingle emptyStoreNat).state).state =
       getCurrentVersion (runMigrations migsSingle emptyStoreNat).state) :=
  ⟨by decide, runMigrations_idempotent migsSingle emptyStoreNat (by decide)⟩

/-- Claim C9: `applyMigration(m)` performs exactly two store-mutating steps
in order — first `m.up(handle)`, then the insert of the ledger row — with no
transaction wrapping them: the full call factors through the intermediate
store after step 1, and at that crash point the schema transform is applied
while the ledger is exactly as before, with no row recorded for `m`. -/
theorem applyMigration_two_steps_unwrapped {σ : Type} (m : Migration σ)
    (st : MigState σ) (sch : σ) (h : m.up st.schema = .ok sch) :
    applyMigrationUpTo m st 1 = (⟨sch, st.ledger⟩, none) ∧
    (applyMigrationUpTo m st 1).1.schema = sch ∧
    (applyMigrationUpTo m st 1).1.ledger = st.ledger ∧
    applyMigration m st = ledgerInsertStep m (applyMigrationUpTo m st 1).1 := by
  have h1 : applyMigrationUpTo m st 1 = (⟨sch, st.ledger⟩, none) := by
    unfold applyMigrationUpTo
    rw [h]
  refine ⟨h1, by rw [h1], by rw [h1], ?_⟩
  rw [h1]
  unfold applyMigration
  rw [h]

/-- Witness for claim C9: a concrete migration whose `up` succeeds leaves,
between its two steps, the transformed schema with the original (empty)
ledger, and the full call is the ledger insert applied to that state. -/
theorem applyMigration_two_steps_unwrapped_witness :
    applyMigrationUpTo (natMig 7 "m7") emptyStoreNat 1 =
      ((⟨1, []⟩ : MigState Nat), none) ∧
    (applyMigrationUpTo (natMig 7 "m7") emptyStoreNat 1).1.schema = 1 ∧
    (applyMigrationUpTo (natMig 7 "m7") emptyStoreNat 1).1.ledger = [] ∧
    applyMigration (natMig 7 "m7") emptyStoreNat =
      ledgerInsertStep (natMig 7 "m7")
        (applyMigrationUpTo (natMig 7 "m7") emptyStoreNat 1).1 :=
  applyMigration_two_steps_unwrapped (natMig 7 "m7") emptyStoreNat 1 rfl

/-- Migrations declared out of order: versions 4, 1, 3. -/
def outOfOrderMigs : List (Migration Nat) :=
  [natMig 4 "m4", natMig 1 "m1", natMig 3 "m3"]

/-- Claim C10: `runMigrations` sorts the caller's migrations array in place
(ascending by version) — after any call the caller's own array holds the
sorted order, and for the out-of-order input [v4, v1, v3] it afterwards reads
[v1, v3, v4] instead of the supplied order. -/
theorem runMigrations_sorts_caller_array :
    (∀ (σ : Type) (migs : List (Migration σ)) (st : MigState σ),
      (runMigrations migs st).callerArray = sortByVersion migs) ∧
    (runMigrations outOfOrderMigs emptyStoreNat).callerArray.map
      (fun m => m.version) = [1, 3, 4] ∧
    outOfOrderMigs.map (fun m => m.version) = [4, 1, 3] := by
  refine ⟨fun σ migs st => rfl, ?_, by decide⟩
  decide

/-- The fields relevant to counting open store handles at bootstrap:
`DatabaseConnection`'s cached handle and `initialized` flag, and
`MigrationManager`'s own cached handle, plus a counter of
`SQLite.openDatabaseAsync` calls. -/
structure AppDbState where
  connDb : Bool
  connInitialized : Bool
  mgrDb : Bool
  openCalls : Nat
deriving DecidableEq, Repr

/-- Process start: no handle anywhere. -/
def appFresh : AppDbState :=
  ⟨false, false, false, 0⟩

/-- Embeds `dbConnection.initialize()` on native with a successful open
(DatabaseConnection.ts lines 26–61): opens the singleton's handle if not yet
initialized. -/
def dbConnectionInitialize (s : AppDbState) : AppDbState :=
  if s.connInitialized then s
  else ⟨true, true, s.mgrDb, s.openCalls + 1⟩

/-- Embeds `migrationManager.initialize()` on native (migrationManager.ts lines
20–22): `if (!this.db) this.db = await SQLite.openDatabaseAsync(...)` — the
MigrationManager opens and caches a handle of its own rather than using the
DatabaseConnection singleton's. -/
def migrationManagerInitialize (s : AppDbState) : AppDbState :=
  if s.mgrDb then s
  else ⟨s.connDb, s.connInitialized, true, s.openCalls + 1⟩

/-- Embeds `DatabaseManager.initializeDatabase()` on native (databaseInit.ts):
`dbConnection.initialize()`, then `migrationManager.runMigrations(...)`,
whose first statement is `this.initialize()`. -/
def initializeDatabaseBootstrap (s : AppDbState) : AppDbState :=
  migrationManagerInitialize (dbConnectionInitialize s)

/-- How many store handles are open. -/
def liveHandles (s : AppDbState) : Nat :=
  (if s.connDb then 1 else 0) + (if s.mgrDb then 1 else 0)

/-- Claim C1 is violated by the code: after the standard native bootstrap
two live handles to the store exist — `DatabaseConnection.db` and
`MigrationManager.db` — because `MigrationManager.initialize` opens its own
handle with `SQLite.openDatabaseAsync` instead of going through the
`DatabaseConnection` singleton, contradicting the repository's own
guidance ("never create multiple database connections; use only the
centralized manager"). -/
theorem bootstrap_opens_two_handles :
    liveHandles (initializeDatabaseBootstrap appFresh) = 2 ∧
    (initializeDatabaseBootstrap appFresh).openCalls = 2 := by
  decide

/-- Modelled from the spec: `db.withTransactionAsync(body)` is expo-sqlite
library code, not part of this repository.  Per §4.1/§5 of the design it
begins an atomic boundary, invokes the body, commits on success, and on
failure rolls the store back to its pre-transaction contents and rethrows.
The body is a store transformer that may have performed part of its writes
by the time it throws. -/
def withTransactionAsync {σ : Type} (db : σ)
    (body : σ → σ × Option DbError) : σ × Option DbError :=
  match body db with
  | (db2, none) => (db2, none)
  | (_, some e) => (db, some e)

/-- Observable behaviour of one store-transforming `withRetry` call: the
final store, the number of underlying attempts, the backoff sleeps, and the
outcome. -/
structure TxnTrace (σ : Type) where
  store : σ
  calls : Nat
  delays : List Nat
  err : Option DbError

/-- The same retry loop as `withRetryAux`, for an operation that transforms
the store (as the transaction attempt of `runInTransaction` does); the store
is threaded through the attempts. -/
def withRetryStAux {σ : Type} (op : σ → σ × Option DbError)
    (baseDelay maxDelay maxRetries : Nat) :
    Nat → ConnFields → σ → Nat → TxnTrace σ
  | _, _, st, 0 => ⟨st, 0, [], some ⟨"unreachable: loop exit"⟩⟩
  | attempt, conn, st, fuel + 1 =>
    let conn1 : ConnFields :=
      if conn.dbOpen && conn.initialized then conn else ⟨true, true⟩
    match op st with
    | (st2, none) => ⟨st2, 1, [], none⟩
    | (st2, some e) =>
      if isConstraintError e then ⟨st2, 1, [], some e⟩
      else
        let conn2 : ConnFields := if isLockError e then ⟨false, false⟩ else conn1
        if attempt = maxRetries then ⟨st2, 1, [], some e⟩
        else
          let d := min (baseDelay * 2 ^ attempt) maxDelay
          let rest :=
            withRetryStAux op baseDelay maxDelay maxRetries (attempt + 1)
              conn2 st2 fuel
          ⟨rest.store, rest.calls + 1, d :: rest.delays, rest.err⟩

/-- Embeds `DatabaseConnection.runInTransaction(operations)` on native: ensure
initialization, fetch the handle, then run `db.withTransactionAsync(body)` as
the unit of work retried by `withRetry` — a retry re-runs the whole
transaction. -/
def runInTransaction {σ : Type} (body : σ → σ × Option DbError)
    (opts : DatabaseRetryOptions) (conn : ConnFields) (st : σ) : TxnTrace σ :=
  withRetryStAux (fun s => withTransactionAsync s body)
    opts.baseDelay opts.maxDelay opts.maxRetries 0 conn st
    (opts.maxRetries + 1)

theorem withRetryStAux_stationary_failure {σ : Type}
    (op : σ → σ × Option DbError) (st : σ) (e : DbError) (bd md mr : Nat)
    (hop : op st = (st, some e)) :
    ∀ rem attempt conn, attempt + rem = mr →
      (withRetryStAux op bd md mr attempt conn st (rem + 1)).store = st ∧
      (withRetryStAux op bd md mr attempt conn st (rem + 1)).err = some e := by
  intro rem
  induction rem with
  | zero =>
    intro attempt conn hmr
    simp only [Nat.add_zero] at hmr
    subst hmr
    rw [withRetryStAux, hop]
    by_cases hc : isConstraintError e = true
    · simp [hc]
    · simp [hc]
  | succ rem ih =>
    intro attempt conn hmr
    have hne : attempt ≠ mr := by omega
    rw [withRetryStAux, hop]
    by_cases hc : isConstraintError e = true
    · simp [hc]
    · simp only [hc, Bool.false_eq_true, if_false, if_neg hne]
      exact ⟨(ih (attempt + 1) _ (by omega)).1, (ih (attempt + 1) _ (by omega)).2⟩

/-- Claim C7: `runInTransaction(body)` is atomic — the store changes commit
exactly when the body completes without error, and when the body throws
partway (having already written part of its effects) the transaction is
rolled back so that none of the body's writes remain, and the body's error
is rethrown to the caller. -/
theorem runInTransaction_atomic {σ : Type} (body : σ → σ × Option DbError)
    (opts : DatabaseRetryOptions) (conn : ConnFields) (st : σ) :
    (∀ st2, body st = (st2, none) →
      (runInTransaction body opts conn st).store = st2 ∧
      (runInTransaction body opts conn st).err = none) ∧
    (∀ stPartial e, body st = (stPartial, some e) →
      (runInTransaction body opts conn st).store = st ∧
      (runInTransaction body opts conn st).err = some e) := by
  constructor
  · intro st2 hb
    have hop : withTransactionAsync st body = (st2, none) := by
      unfold withTransactionAsync
      rw [hb]
    unfold runInTransaction
    rw [withRetryStAux]
    simp [hop]
  · intro stPartial e hb
    have hop : withTransactionAsync st body = (st, some e) := by
      unfold withTransactionAsync
      rw [hb]
    exact withRetryStAux_stationary_failure
      (fun s => withTransactionAsync s body) st e opts.baseDelay opts.maxDelay
      opts.maxRetries hop opts.maxRetries 0 conn (by omega)

/-- A transaction body over two tables (A and B, each a list of rows):
it writes row 7 into table A, then throws before writing table B. -/
def writeAThenThrow : List Int × List Int →
    (List Int × List Int) × Option DbError :=
  fun s => ((s.1 ++ [7], s.2), some ⟨"boom before writing table B"⟩)

/-- Witness for claim C7: the body writes table A and then throws; after
`runInTransaction` the store is exactly the pre-transaction store — table A's
write is absent — and the body's error reaches the caller. -/
theorem runInTransaction_atomic_witness :
    (runInTransaction writeAThenThrow defaultRetryOptions ⟨true, true⟩
        (([], []) : List Int × List Int)).store = ([], []) ∧
    (runInTransaction writeAThenThrow defaultRetryOptions ⟨true, true⟩
        (([], []) : List Int × List Int)).err =
      some ⟨"boom before writing table B"⟩ :=
  (runInTransaction_atomic writeAThenThrow defaultRetryOptions ⟨true, true⟩
      ([], [])).2 ([7], []) ⟨"boom before writing table B"⟩ rfl
